import Mathlib

/-!
Verification of the mgeo causal pair-filtering and opportunity-scoring
pipeline: a shallow embedding of `brand_analyzer.py`, `causal_filter.py`,
`run_simulator.py` / `verify_optimization.py` (visibility scorer),
`target_source_selector.py`, `explainer_agent.py` and `rule_aggregator.py`,
together with theorems settling the specification's claims about them.

Modelling conventions:
  * Python strings are `String` (or `List Char` where character-level
    operations such as regex splitting and `str.replace` are involved);
    Python string operations are re-implemented structurally so that they
    evaluate inside the kernel.
  * JSON-file numbers (visibility scores, weights, brand scores) are `ℚ`;
    quantities produced by transcendental functions (`np.exp`, `np.log`)
    are `ℝ`.
  * Python dicts keyed by strings are functions `String → Option _`.
  * Fallible Python code (uncaught exceptions) is `Except String _`;
    code wrapped in `try/except` that yields `None` on failure is
    `Option _`.
-/

/-! ## Generic list helpers -/

/-- Stable descending insertion used by `sortDescBy`: the new element is
placed before the first element whose key is less than or equal to its own
key, so an element earlier in the input stays before later elements with an
equal key. -/
def insDescBy (key : α → ℚ) (r : α) : List α → List α
  | [] => [r]
  | x :: xs => if key r < key x then x :: insDescBy key r xs else r :: x :: xs

/-- Stable descending sort by a rational key: the functional behaviour of
Python's `sorted(xs, key=..., reverse=True)` (descending, ties keep input
order). -/
def sortDescBy (key : α → ℚ) : List α → List α
  | [] => []
  | x :: xs => insDescBy key x (sortDescBy key xs)

/-- All pairs `(l[i], l[j])` with `i < j`, in the order produced by the
source's double loop `for i in range(n): for j in range(i+1, n)`. -/
def orderedPairs : List α → List (α × α)
  | [] => []
  | x :: rest => rest.map (fun y => (x, y)) ++ orderedPairs rest

/-- Batches `l[0:k], l[k:2k], ...` of the source's
`for i in range(0, len(l), k): l[i:i+k]`, via structural fuel. -/
def chunksF (k : ℕ) : ℕ → List α → List (List α)
  | 0, _ => []
  | _, [] => []
  | fuel + 1, l => l.take k :: chunksF k fuel (l.drop k)

/-- Batches of size `k` (the last one possibly shorter). -/
def chunks (k : ℕ) (l : List α) : List (List α) := chunksF k l.length l

/-! ## Character-level models of the Python string operations -/

/-- ASCII lower-casing of one character (`str.lower`; the repository's brand
strings are ASCII). -/
def lowChar (c : Char) : Char :=
  if 'A' ≤ c ∧ c ≤ 'Z' then Char.ofNat (c.toNat + 32) else c

/-- Whitespace as recognised by Python's `str.strip` / `str.split` on the
repository's data. -/
def isSpaceChar (c : Char) : Bool :=
  c = ' ' ∨ c = '\t' ∨ c = '\n' ∨ c = '\r'

/-- Python `str.strip()`: drop leading and trailing whitespace. -/
def trimChars (s : List Char) : List Char :=
  ((s.dropWhile isSpaceChar).reverse.dropWhile isSpaceChar).reverse

/-- Python `str.replace(pat, rep)` (all non-overlapping occurrences, left to
right), via structural fuel; every call in the modelled code has a non-empty
`pat`, for which `repAllF (length s) s` fully processes `s`. -/
def repAllF (pat rep : List Char) : ℕ → List Char → List Char
  | _, [] => []
  | 0, s => s
  | fuel + 1, c :: rest =>
    if pat.isPrefixOf (c :: rest) then
      rep ++ repAllF pat rep fuel ((c :: rest).drop pat.length)
    else
      c :: repAllF pat rep fuel rest

/-- Python `s.replace(pat, rep)`. -/
def repAll (pat rep s : List Char) : List Char := repAllF pat rep s.length s

/-- Python `s.split()` (split on whitespace runs, no empty words). -/
def splitWsAux : List Char → List Char → List (List Char)
  | [], acc => if acc = [] then [] else [acc.reverse]
  | c :: rest, acc =>
    if isSpaceChar c then
      (if acc = [] then splitWsAux rest [] else acc.reverse :: splitWsAux rest [])
    else splitWsAux rest (c :: acc)

/-- Python `s.split()`. -/
def splitWs (s : List Char) : List (List Char) := splitWsAux s []

/-- Python `" ".join(words)`. -/
def joinSpace : List (List Char) → List Char
  | [] => []
  | [w] => w
  | w :: rest => w ++ ' ' :: joinSpace rest

/-- Python `needle in hay` helper: `needle` is a prefix of `hay`. -/
def startsWithSeq : List Char → List Char → Bool
  | [], _ => true
  | _ :: _, [] => false
  | a :: as, b :: bs => a == b && startsWithSeq as bs

/-- Python substring containment `needle in hay` (true for the empty
needle, as in Python). -/
def containsSeq : List Char → List Char → Bool
  | [], needle => startsWithSeq needle []
  | c :: t, needle => startsWithSeq needle (c :: t) || containsSeq t needle

/-! ## brand_analyzer.py -/

/-- From `brand_analyzer.normalize_brand`: lower-case, strip, remove the
literal prefix "amazon brand - ", then canonicalise the spelling
"amazonbasics" to "amazon basics"; falsy input (None or the empty string)
yields the sentinel "unknown". -/
def normalize_brand (brand_raw : Option String) : String :=
  match brand_raw with
  | none => "unknown"
  | some s =>
    if s = "" then "unknown"
    else
      String.mk
        (repAll "amazonbasics".data "amazon basics".data
          (repAll "amazon brand - ".data "".data
            (trimChars (s.data.map lowChar))))

/-- Rounding to 4 decimal places over `ℝ` (Python `round(x, 4)`; the values
this is applied to are irrational, so the tie-breaking convention at exact
half-way points is immaterial). -/
noncomputable def round4R (x : ℝ) : ℝ := (round (x * 10000) : ℤ) / 10000

/-- From `brand_analyzer.build_global_brand_map`'s scoring step for one
brand: a brand with `count == 1` scores exactly 0.0 without any division;
otherwise the score is `round(np.log(count) / np.log(max_freq), 4)`.
The `none` branch marks the (claimed unreachable) case in which that
division's denominator `np.log(max_freq)` would be zero, i.e. `max_freq ≤ 1`. -/
noncomputable def popularity_score (count max_freq : ℕ) : Option ℝ :=
  if count = 1 then some 0
  else if max_freq ≤ 1 then none
  else some (round4R (Real.log count / Real.log max_freq))

/-- The distinct normalized brand keys of a list of extracted raw brand
strings (the keys of `Counter(raw_brands)`). -/
def brandKeys (brands : List String) : List String :=
  (brands.map (fun s => normalize_brand (some s))).dedup

/-- The frequency `Counter(raw_brands)[b]` of one normalized key. -/
def brandKeyCount (brands : List String) (b : String) : ℕ :=
  (brands.map (fun s => normalize_brand (some s))).count b

/-- The top frequency `brand_counts.most_common(1)[0][1]`. -/
def max_freq (brands : List String) : ℕ :=
  ((brandKeys brands).map (brandKeyCount brands)).foldr max 0

/-- From `brand_analyzer.build_global_brand_map`: the brand map entries
`(key, count, popularity_score)` built from the extracted raw brand
strings. -/
noncomputable def build_global_brand_map (brands : List String) :
    List (String × ℕ × Option ℝ) :=
  (brandKeys brands).map (fun b =>
    (b, brandKeyCount brands b,
      popularity_score (brandKeyCount brands b) (max_freq brands)))

/-! ## causal_filter.py: propensity model (real-valued) -/

/-- The logistic function `1 / (1 + np.exp(-x))`. -/
noncomputable def sigmoid (x : ℝ) : ℝ := 1 / (1 + Real.exp (-x))

/-- From `causal_filter.py`: the tuned weight `W_LENGTH = 0.8`. -/
noncomputable def W_LENGTH : ℝ := 0.8

/-- From `causal_filter.py`: the tuned weight `W_BRAND = 1.2`. -/
noncomputable def W_BRAND : ℝ := 1.2

/-- From `causal_filter.py`: the tuned weight `W_RATING = 1.2`. -/
noncomputable def W_RATING : ℝ := 1.2

/-- From `causal_filter.calculate_propensity`. -/
noncomputable def calculate_propensity (text_len brand_score rating_val : ℝ)
    (max_len : ℝ := 2000) : ℝ :=
  let norm_len := min (text_len / max_len) 1
  let norm_rating := max 0 ((rating_val - 3) / 2)
  let logits := W_LENGTH * norm_len + W_BRAND * brand_score + W_RATING * norm_rating
  sigmoid logits

/-! ## causal_filter.py: brand-score lookup at filter time -/

/-- The brand key computed inside `causal_filter.get_brand_score`:
`str(brand).lower().replace("amazon brand - ", "").strip()`. Unlike
`normalize_brand` it does not canonicalise "amazonbasics". -/
def filter_brand_key (brand : String) : String :=
  String.mk (trimChars (repAll "amazon brand - ".data "".data (brand.data.map lowChar)))

/-- A catalog record as used by `get_brand_score` (the
`specifications.brand` entry, with `title`-based fallback). -/
structure ItemData where
  item_id : String
  title : String
  features : String
  specs_brand : Option String
  sim_rating : Option ℚ
deriving DecidableEq

/-- Python `" ".join(item_data['title'].split()[:2])`. -/
def firstTwoTitleWords (title : String) : String :=
  String.mk (joinSpace ((splitWs title.data).take 2))

/-- From `causal_filter.get_brand_score`: resolve the raw brand (specs entry
when truthy, else the first two title words), normalise with
`filter_brand_key`, and look it up in the brand map (0.0 when unseen). -/
def get_brand_score (item_data : ItemData) (brand_map : String → Option ℚ) : ℚ :=
  let brand :=
    match item_data.specs_brand with
    | some b => if b = "" then firstTwoTitleWords item_data.title else b
    | none => firstTwoTitleWords item_data.title
  let brand_key := filter_brand_key brand
  match brand_map brand_key with
  | some sc => sc
  | none => 0

/-! ## causal_filter.py: the pairwise filter -/

/-- One entry of a query's `rankings` list in the simulation log. The
`rank` field models a rank supplied upstream; the filter never reads it. -/
structure RankEntry where
  item_id : String
  visibility_score : ℚ
  rank : ℤ
deriving DecidableEq

/-- A pair record as written to `causal_pairs.json`. -/
structure CausalPair where
  winner_id : String
  loser_id : String
  winner_rank : ℤ
  loser_rank : ℤ
  winner_vis : ℚ
  loser_vis : ℚ
  winner_propensity : ℚ
  weight : ℚ
deriving DecidableEq

/-- One entry of the simulation log: a query and its rankings. -/
structure QueryLog where
  query : String
  rankings : List RankEntry
deriving DecidableEq

/-- From `causal_filter.py`: `THRESHOLD = 0.90`. -/
def THRESHOLD : ℚ := 0.90

/-- STEP 1 of `apply_pairwise_filter`: sort by visibility score, high to
low; on ties the original order is kept (Python's stable `sorted`). -/
def sorted_items (raw_rankings : List RankEntry) : List RankEntry :=
  sortDescBy (fun x => x.visibility_score) raw_rankings

/-- The derived ranks injected in STEP 1: position in the sorted order,
plus one. -/
def derivedRanks (raw_rankings : List RankEntry) : List (String × ℤ) :=
  (sorted_items raw_rankings).enum.map (fun p => (p.2.item_id, (p.1 : ℤ) + 1))

/-- The `item_vis` dict of STEP 2: keyed by item id, written in sorted
order, so the last occurrence of an id wins. -/
def item_vis_of (sorted : List RankEntry) (id : String) : ℚ :=
  match (sorted.filter (fun r => r.item_id = id)).getLast? with
  | some r => r.visibility_score
  | none => 0

/-- STEP 3's body for one candidate pair, with `w`, `l` the enumerated
(sorted-position, entry) of winner and loser. `props` is the `item_props`
dict of STEP 2 (an item absent from the catalog gets no entry); the three
`if`s are the source's visibility floor, visibility gap, and causal
gatekeeper, and an admitted pair carries the derived ranks and
`weight = 1.0 / w_prop`. -/
def mkPair (props : String → Option ℚ) (vis : String → ℚ)
    (w l : ℕ × RankEntry) : Option CausalPair :=
  match props w.2.item_id with
  | none => none
  | some w_prop =>
    match props l.2.item_id with
    | none => none
    | some _ =>
      let w_vis := vis w.2.item_id
      let l_vis := vis l.2.item_id
      if w_vis < 0.1 then none
      else if w_vis - l_vis < 0.2 then none
      else if w_prop < THRESHOLD then
        some { winner_id := w.2.item_id, loser_id := l.2.item_id,
               winner_rank := (w.1 : ℤ) + 1, loser_rank := (l.1 : ℤ) + 1,
               winner_vis := w_vis, loser_vis := l_vis,
               winner_propensity := w_prop, weight := 1 / w_prop }
      else none

/-- STEP 3 of `apply_pairwise_filter` for one query: all sorted-order pairs
`(i, j)` with `i < j`, filtered through `mkPair`. -/
def query_pairs (raw_rankings : List RankEntry) (props : String → Option ℚ) :
    List CausalPair :=
  (orderedPairs (sorted_items raw_rankings).enum).filterMap
    (fun pr => mkPair props (item_vis_of (sorted_items raw_rankings)) pr.1 pr.2)

/-- From `causal_filter.apply_pairwise_filter`: the grouped output
`[{query, pairs}]`. `props` stands for the per-item propensity data of
STEP 2 (`item_props`), which depends only on the catalog and brand map. An
entry with empty rankings is skipped (`if not raw_rankings: continue`) and
a query with no admitted pairs produces no group (`if query_pairs:`). -/
def apply_pairwise_filter (logs : List QueryLog) (props : String → Option ℚ) :
    List (String × List CausalPair) :=
  logs.filterMap (fun entry =>
    if entry.rankings = [] then none
    else
      let qp := query_pairs entry.rankings props
      if qp = [] then none else some (entry.query, qp))

/-! ## run_simulator.py / verify_optimization.py: visibility scorer -/

/-- Sentence terminators of the split regex `(?<=[.!?]) +`. -/
def termChar (c : Char) : Bool := c = '.' ∨ c = '!' ∨ c = '?'

/-- Consume a maximal run of spaces (the greedy ` +` of the split regex). -/
def dropSpacesL : List Char → List Char
  | [] => []
  | c :: rest => if c = ' ' then dropSpacesL rest else c :: rest

/-- Whether the previous character (head of the reversed current sentence)
is a terminator — the regex lookbehind `(?<=[.!?])`. -/
def prevTerm : List Char → Bool
  | t :: _ => termChar t
  | [] => false

/-- The worker for `re.split(r'(?<=[.!?]) +', text)`: a maximal run of
spaces immediately preceded by `.`, `!` or `?` separates sentences and is
dropped; fuel is structural and `length text` steps always suffice. -/
def splitSentencesF : ℕ → List Char → List Char → List (List Char)
  | 0, cs, acc => [acc.reverse ++ cs]
  | _, [], acc => [acc.reverse]
  | fuel + 1, c :: rest, acc =>
    if c == ' ' && prevTerm acc then
      acc.reverse :: splitSentencesF fuel (dropSpacesL rest) []
    else splitSentencesF fuel rest (c :: acc)

/-- Python `re.split(r'(?<=[.!?]) +', text)`. -/
def splitSentences (cs : List Char) : List (List Char) :=
  splitSentencesF cs.length cs []

/-- Python `len(re.findall(r'\x5b', sent)) or 1`: the number of bracket
citation markers in the sentence, at least 1. -/
def citation_count (sent : List Char) : ℕ :=
  let hits := sent.count '['
  if hits = 0 then 1 else hits

/-- The scoring loop of `calculate_visibility_score`: for each enumerated
sentence containing the item id, add `exp(-1 * i / max(n, 1)) / c`. -/
noncomputable def visTermSum (item_id : List Char) (n : ℕ) :
    List (ℕ × List Char) → ℝ → ℝ
  | [], total => total
  | (i, sent) :: rest, total =>
    visTermSum item_id n rest
      (if containsSeq sent item_id then
        total + 1 * Real.exp (-1 * (i : ℝ) / (max n 1 : ℕ)) / citation_count sent
       else total)

namespace run_simulator

/-- From `run_simulator.calculate_visibility_score` (the "Impression Score
(WordPos)"): 0.0 for falsy text, else the positional-decay sum over
sentences containing the literal item id, rounded to 4 decimals. -/
noncomputable def calculate_visibility_score (generated_text item_id : List Char) : ℝ :=
  if generated_text = [] then 0
  else
    round4R (visTermSum item_id (splitSentences generated_text).length
      (splitSentences generated_text).enum 0)

end run_simulator

namespace verify_optimization

/-- From `verify_optimization.calculate_visibility_score`: the second,
textually identical implementation of the visibility scorer. -/
noncomputable def calculate_visibility_score (generated_text item_id : List Char) : ℝ :=
  if generated_text = [] then 0
  else
    round4R (visTermSum item_id (splitSentences generated_text).length
      (splitSentences generated_text).enum 0)

end verify_optimization

/-! ## target_source_selector.py -/

/-- The diagnosis data looked up from `valid_rules` for one loser. -/
structure RuleInfo where
  gap_analysis : Option String
  generalized_principle : Option String
deriving DecidableEq

/-- One candidate record built by `TargetSelector.select_targets`. -/
structure Candidate where
  item_id : String
  current_rank : ℤ
  current_vis : ℚ
  target_gap_vis : ℚ
  beaten_by : String
  opportunity_score : ℚ
  diagnosis_summary : String
  suggested_principle : String
deriving DecidableEq

/-- Python `round(q, 2)` on the rational values of the selector (no exact
half-way points arise in the claims below, so the tie convention is
immaterial). -/
def round2 (q : ℚ) : ℚ := (round (q * 100) : ℤ) / 100

/-- Python `round(q, 4)`. -/
def round4 (q : ℚ) : ℚ := (round (q * 10000) : ℤ) / 10000

/-- The raw opportunity score `rank_gap * weight` of one pair. -/
def rawOppScore (p : CausalPair) : ℚ :=
  ((p.loser_rank - p.winner_rank : ℤ) : ℚ) * p.weight

/-- The candidate dict built for one admitted pair: note the stored
`opportunity_score` is the rounded `round(opportunity_score, 2)`. -/
def mkCandidate (p : CausalPair) (info : RuleInfo) : Candidate :=
  { item_id := p.loser_id, current_rank := p.loser_rank,
    current_vis := p.loser_vis,
    target_gap_vis := round4 (p.winner_vis - p.loser_vis),
    beaten_by := p.winner_id,
    opportunity_score := round2 (rawOppScore p),
    diagnosis_summary := info.gap_analysis.getD "N/A",
    suggested_principle := info.generalized_principle.getD "N/A" }

/-- The body of the selector's per-pair loop: skip pairs without a
diagnosis (`key not in valid_rules`) or whose loser is ranked ≤ 3; else
build the candidate and deduplicate against an existing entry for the same
loser, replacing it when the new raw score exceeds the existing stored
(rounded) score. -/
def selStep (valid_rules : String → String → Option RuleInfo) (query : String)
    (cands : List Candidate) (p : CausalPair) : List Candidate :=
  match valid_rules query p.loser_id with
  | none => cands
  | some info =>
    if p.loser_rank ≤ 3 then cands
    else
      let cand := mkCandidate p info
      match cands.find? (fun x => x.item_id == p.loser_id) with
      | some existing =>
        if existing.opportunity_score < rawOppScore p then
          (cands.erase existing) ++ [cand]
        else cands
      | none => cands ++ [cand]

/-- The selector's output for one query group: the deduplicated candidates,
sorted by stored opportunity score descending (Python stable sort). -/
def select_query_targets (valid_rules : String → String → Option RuleInfo)
    (query : String) (pairs : List CausalPair) : List Candidate :=
  sortDescBy (fun c => c.opportunity_score)
    (pairs.foldl (selStep valid_rules query) [])

/-- From `TargetSelector.select_targets`: `valid_rules` is the
query-and-loser keyed diagnosis lookup built in its step 2; a query whose
candidate list is empty is absent from `candidates_by_query`. -/
def select_targets (valid_rules : String → String → Option RuleInfo)
    (grouped_pairs : List (String × List CausalPair)) :
    List (String × List Candidate) :=
  grouped_pairs.filterMap (fun g =>
    let cs := select_query_targets valid_rules g.1 g.2
    if cs = [] then none else some (g.1, cs))

/-- Invariant of the selector's per-pair loop over the pairs processed so
far: candidates have pairwise distinct loser ids; every candidate was built
by `mkCandidate` from some processed admitted pair; every candidate's
stored (rounded) opportunity score dominates the rounded raw score of every
processed admitted pair for its loser; and every processed admitted pair's
loser is represented among the candidates. -/
def SelInv (valid_rules : String → String → Option RuleInfo) (query : String)
    (ps : List CausalPair) (cands : List Candidate) : Prop :=
  cands.Pairwise (fun a b => a.item_id ≠ b.item_id) ∧
  (∀ c ∈ cands, ∃ p ∈ ps, ∃ info, valid_rules query p.loser_id = some info ∧
    3 < p.loser_rank ∧ c = mkCandidate p info) ∧
  (∀ c ∈ cands, ∀ p ∈ ps, (valid_rules query p.loser_id).isSome = true →
    3 < p.loser_rank → p.loser_id = c.item_id →
    round2 (rawOppScore p) ≤ c.opportunity_score) ∧
  (∀ p ∈ ps, (valid_rules query p.loser_id).isSome = true → 3 < p.loser_rank →
    ∃ c ∈ cands, c.item_id = p.loser_id)

/-! ## explainer_agent.py -/

/-- The parsed LLM diagnosis for one pair, as consumed by `run_explainer`
(`insight.get('found_gap')` and `insight['generalized_principle']`). -/
structure Insight where
  found_gap : Bool
  generalized_principle : String
deriving DecidableEq

/-- One persisted rule. `rule_field` models the optional dict key `'rule'`:
rules appended by `run_explainer` are the insight dicts, which carry
`'generalized_principle'` but never `'rule'`, so it is `none` there. -/
structure RuleRec where
  source_query : String
  source_pair : String
  generalized_principle : String
  rule_field : Option String
deriving DecidableEq

/-- The explainer's mutable state: the rules list, the processed pair
signatures, and the seen content hashes. -/
structure ExplState where
  rules : List RuleRec
  processed_ids : List String
  seen_hashes : List String
deriving DecidableEq

/-- From `load_existing_progress`: the processed pair ids are the
`source_pair` values of the persisted rules. -/
def load_processed (rules : List RuleRec) : List String :=
  rules.map (fun r => r.source_pair)

/-- The resume rebuild of `seen_hashes` in `run_explainer`: it hashes
`r['rule']` for the rules that have a `'rule'` key. -/
def load_seen_hashes (md5 : String → String) (rules : List RuleRec) : List String :=
  (rules.filterMap (fun r => r.rule_field)).map md5

/-- The body of `run_explainer`'s per-pair loop. `md5` is the content hash,
`llm` the deterministic outcome of `ExplainerAgent.explain_pair` (None for
an LLM error, an unparseable response, or no JSON found), and `item_found`
the catalog lookup `item_map.get`. A new rule is appended (and immediately
persisted) only when the signature is fresh, both items are in the catalog,
the insight reports a gap, and the content hash is unseen. -/
def explainStep (md5 : String → String) (llm : String → CausalPair → Option Insight)
    (item_found : String → Bool) (query : String) (st : ExplState)
    (p : CausalPair) : ExplState :=
  let pair_signature := p.winner_id ++ "_vs_" ++ p.loser_id
  if pair_signature ∈ st.processed_ids then st
  else if !(item_found p.winner_id && item_found p.loser_id) then st
  else
    match llm query p with
    | some insight =>
      if insight.found_gap then
        if md5 insight.generalized_principle ∈ st.seen_hashes then st
        else
          { rules := st.rules ++
              [⟨query, pair_signature, insight.generalized_principle, none⟩],
            processed_ids := st.processed_ids ++ [pair_signature],
            seen_hashes := st.seen_hashes ++ [md5 insight.generalized_principle] }
      else st
    | none => st

/-- From `explainer_agent.run_explainer`: resume from the persisted rules,
then process every pair of every group, returning the final rules list. -/
def run_explainer (md5 : String → String) (llm : String → CausalPair → Option Insight)
    (item_found : String → Bool) (existing_rules : List RuleRec)
    (grouped_pairs : List (String × List CausalPair)) : List RuleRec :=
  (grouped_pairs.foldl
    (fun (st : ExplState) (g : String × List CausalPair) =>
      g.2.foldl (explainStep md5 llm item_found g.1) st)
    { rules := existing_rules,
      processed_ids := load_processed existing_rules,
      seen_hashes := load_seen_hashes md5 existing_rules }).rules

/-! ## rule_aggregator.py -/

/-- A JSON value, as returned by `json.loads` inside `_clean_json`. -/
inductive Json where
  | obj : List (String × Json) → Json
  | arr : List Json → Json
  | str : String → Json
  | num : ℚ → Json
  | jbool : Bool → Json
  | null : Json

/-- Python `d[key]`: a `KeyError` (or a `TypeError` on a non-dict) is an
uncaught exception unless a `try` block surrounds the access. -/
def getItem (j : Json) (key : String) : Except String Json :=
  match j with
  | Json.obj fields =>
    match fields.find? (fun kv => kv.1 == key) with
    | some kv => Except.ok kv.2
    | none => Except.error ("KeyError: " ++ key)
  | _ => Except.error ("TypeError: not a dict: " ++ key)

/-- Python string concatenation with a JSON value: a `TypeError` unless the
value is a string. -/
def asString (j : Json) : Except String String :=
  match j with
  | Json.str s => Except.ok s
  | _ => Except.error "TypeError: not a string"

/-- Python f-string rendering of a JSON value (`f"- \x7bl['theme']\x7d..."`
formats any object; only the keys' presence affects control flow, so the
rendering of non-string values is abstracted). -/
def jstr : Json → String
  | Json.str s => s
  | _ => "object"

/-- Python truthiness of a parsed JSON value (`if principle:`). -/
def jtruthy : Json → Bool
  | Json.obj l => !l.isEmpty
  | Json.arr l => !l.isEmpty
  | Json.str s => !(s == "")
  | Json.num q => !(q == 0)
  | Json.jbool b => b
  | Json.null => false

/-- The `len(intermediate_lessons) == 1` branch of
`synthesize_cluster_recursive`: `lesson_data['theme'] + ": " +
lesson_data['lesson']`, whose key accesses and string concatenations are
not inside any `try`. -/
def singleLessonSummary (lesson_data : Json) : Except String String :=
  match getItem lesson_data "theme" with
  | Except.error e => Except.error e
  | Except.ok t =>
    match asString t with
    | Except.error e => Except.error e
    | Except.ok ts =>
      match getItem lesson_data "lesson" with
      | Except.error e => Except.error e
      | Except.ok l =>
        match asString l with
        | Except.error e => Except.error e
        | Except.ok ls => Except.ok (ts ++ ": " ++ ls)

/-- One line `- theme: lesson` of the meta digest (f-string: keys must
exist, values render as any object). -/
def metaDigestLine (l : Json) : Except String String :=
  match getItem l "theme" with
  | Except.error e => Except.error e
  | Except.ok t =>
    match getItem l "lesson" with
    | Except.error e => Except.error e
    | Except.ok lsn => Except.ok ("- " ++ jstr t ++ ": " ++ jstr lsn)

/-- The meta digest `"\n".join(...)` over the intermediate lessons. -/
def metaDigest : List Json → Except String (List String)
  | [] => Except.ok []
  | l :: rest =>
    match metaDigestLine l with
    | Except.error e => Except.error e
    | Except.ok line =>
      match metaDigest rest with
      | Except.error e => Except.error e
      | Except.ok lines => Except.ok (line :: lines)

/-- From `RuleAggregator.synthesize_cluster_recursive`. `batch_llm` is the
outcome of `_synthesize_batch` on one batch (`try: call_ollama;
_clean_json; except: None` — `none` for a transport error or output with no
parseable JSON, `some j` for any parsed JSON value), and `reduce_llm` the
similarly guarded final call on the findings summary. The map phase drops
failed batches; the reduce phase's summary construction accesses
`['theme']` / `['lesson']` outside any `try`, so a wrong-shape lesson is an
uncaught exception (`Except.error`). -/
def synthesize_cluster_recursive (batch_llm : List String → Option Json)
    (reduce_llm : String → Option Json) (cluster_rules : List String) :
    Except String (Option Json) :=
  let intermediate_lessons := (chunks 15 cluster_rules).filterMap batch_llm
  let summaryE :=
    if intermediate_lessons.length = 1 then
      match intermediate_lessons with
      | [lesson_data] => singleLessonSummary lesson_data
      | _ => Except.error "unreachable"
    else
      match metaDigest intermediate_lessons with
      | Except.error e => Except.error e
      | Except.ok lines => Except.ok (String.intercalate "\n" lines)
  match summaryE with
  | Except.error e => Except.error e
  | Except.ok final_summary => Except.ok (reduce_llm final_summary)

/-- Python `principle['support_count'] = v`: a `TypeError` on a non-dict,
also uncaught. -/
def setItem (j : Json) (key : String) (v : Json) : Except String Json :=
  match j with
  | Json.obj fields => Except.ok (Json.obj (fields ++ [(key, v)]))
  | _ => Except.error ("TypeError: cannot set item: " ++ key)

/-- The cluster loop of `RuleAggregator.run_aggregation`: empty clusters
are skipped, a falsy or absent principle contributes nothing, a truthy one
gets `support_count` and `cluster_id` set and is collected; no exception
handler surrounds the loop, so an `Except.error` aborts the whole run. -/
def run_aggregation_aux (batch_llm : List String → Option Json)
    (reduce_llm : String → Option Json) :
    List (ℕ × List String) → Except String (List Json)
  | [] => Except.ok []
  | (cid, rules) :: rest =>
    if rules = [] then run_aggregation_aux batch_llm reduce_llm rest
    else
      match synthesize_cluster_recursive batch_llm reduce_llm rules with
      | Except.error e => Except.error e
      | Except.ok none => run_aggregation_aux batch_llm reduce_llm rest
      | Except.ok (some principle) =>
        if jtruthy principle then
          match setItem principle "support_count" (Json.num rules.length) with
          | Except.error e => Except.error e
          | Except.ok p1 =>
            match setItem p1 "cluster_id" (Json.num cid) with
            | Except.error e => Except.error e
            | Except.ok p2 =>
              match run_aggregation_aux batch_llm reduce_llm rest with
              | Except.error e => Except.error e
              | Except.ok ps => Except.ok (p2 :: ps)
        else run_aggregation_aux batch_llm reduce_llm rest

/-- From `RuleAggregator.run_aggregation`, restricted to the cluster
synthesis loop (clustering itself is the external embedding service): the
final principles, or the uncaught exception that aborts the run. -/
def run_aggregation (batch_llm : List String → Option Json)
    (reduce_llm : String → Option Json) (clusters : List (List String)) :
    Except String (List Json) :=
  run_aggregation_aux batch_llm reduce_llm clusters.enum

/-! ## Helper lemmas -/

/-- The logistic function is strictly monotone. -/
theorem sigmoid_strictMono : StrictMono sigmoid := by
  intro x y hxy
  unfold sigmoid
  have he : Real.exp (-y) < Real.exp (-x) := Real.exp_lt_exp.2 (by linarith)
  have hy : (0 : ℝ) < 1 + Real.exp (-y) := by positivity
  exact one_div_lt_one_div_of_lt hy (by linarith)

/-- The logistic function is monotone. -/
theorem sigmoid_monotone : Monotone sigmoid :=
  sigmoid_strictMono.monotone

/-- The logistic function takes values strictly below 1. -/
theorem sigmoid_lt_one (x : ℝ) : sigmoid x < 1 := by
  unfold sigmoid
  rw [div_lt_one (by positivity)]
  have := Real.exp_pos (-x)
  linarith

/-- The logistic function is positive. -/
theorem sigmoid_pos (x : ℝ) : 0 < sigmoid x := by
  unfold sigmoid
  positivity

/-- The logistic function takes the value 1/2 at 0. -/
theorem sigmoid_zero : sigmoid 0 = 1 / 2 := by
  unfold sigmoid
  rw [neg_zero, Real.exp_zero]
  norm_num

/-- Every member of a list is bounded by its `foldr max 0`. -/
theorem le_foldr_max {l : List ℕ} {a : ℕ} (h : a ∈ l) : a ≤ l.foldr max 0 := by
  induction l with
  | nil => cases h
  | cons x xs ih =>
    rcases List.mem_cons.1 h with rfl | hmem
    · exact le_max_left _ _
    · exact le_trans (ih hmem) (le_max_right _ _)

/-! ## Claim C2: propensity monotonicity -/

/-- C2 counterexample: increasing `text_length` from 2000 to 3000 (beyond
`max_length`), or `rating` from 1 to 2 (below 3.0), leaves the returned
propensity unchanged, so the claimed strict increase in each of the three
coordinates fails. -/
theorem C2_counterexample_saturation :
    calculate_propensity 2000 0 4 = calculate_propensity 3000 0 4 ∧
    calculate_propensity 100 0 1 = calculate_propensity 100 0 2 := by
  constructor <;>
    · norm_num [calculate_propensity, min_def, max_def]

/-- C2 amended: with the default weights and `max_length = 2000`, the
propensity is strictly increasing in `brand_score` everywhere; strictly
increasing in `text_length` provided the smaller length is below
`max_length`; strictly increasing in `rating` provided the larger rating
exceeds 3.0; and weakly increasing in all three coordinates jointly. -/
theorem C2_amended_monotonicity :
    (∀ t b₁ b₂ r : ℝ, b₁ < b₂ →
      calculate_propensity t b₁ r < calculate_propensity t b₂ r) ∧
    (∀ t₁ t₂ b r : ℝ, t₁ < t₂ → t₁ < 2000 →
      calculate_propensity t₁ b r < calculate_propensity t₂ b r) ∧
    (∀ t b r₁ r₂ : ℝ, r₁ < r₂ → 3 < r₂ →
      calculate_propensity t b r₁ < calculate_propensity t b r₂) ∧
    (∀ t₁ t₂ b₁ b₂ r₁ r₂ : ℝ, t₁ ≤ t₂ → b₁ ≤ b₂ → r₁ ≤ r₂ →
      calculate_propensity t₁ b₁ r₁ ≤ calculate_propensity t₂ b₂ r₂) := by
  have hWL : W_LENGTH = 0.8 := rfl
  have hWB : W_BRAND = 1.2 := rfl
  have hWR : W_RATING = 1.2 := rfl
  refine ⟨?_, ?_, ?_, ?_⟩
  · intro t b₁ b₂ r h
    unfold calculate_propensity
    apply sigmoid_strictMono
    rw [hWB]
    have h12 : (1.2 : ℝ) * b₁ < 1.2 * b₂ := by linarith
    linarith
  · intro t₁ t₂ b r h h2000
    unfold calculate_propensity
    apply sigmoid_strictMono
    have hlt : t₁ / 2000 < 1 := by rw [div_lt_one (by norm_num)]; linarith
    have hdiv : t₁ / 2000 < t₂ / 2000 := by
      exact (div_lt_div_iff_of_pos_right (by norm_num)).2 h
    have hm : min (t₁ / 2000) 1 < min (t₂ / 2000) 1 := by
      rw [min_eq_left hlt.le]
      exact lt_min_iff.2 ⟨hdiv, hlt⟩
    rw [hWL]
    have hscaled : (0.8 : ℝ) * min (t₁ / 2000) 1 < 0.8 * min (t₂ / 2000) 1 := by
      linarith
    linarith
  · intro t b r₁ r₂ h h3
    unfold calculate_propensity
    apply sigmoid_strictMono
    have h2 : (0 : ℝ) < (r₂ - 3) / 2 := by linarith
    have hmax₂ : max (0 : ℝ) ((r₂ - 3) / 2) = (r₂ - 3) / 2 := max_eq_right h2.le
    have hmax₁ : max (0 : ℝ) ((r₁ - 3) / 2) < (r₂ - 3) / 2 := max_lt h2 (by linarith)
    rw [hWR, hmax₂]
    have hscaled : (1.2 : ℝ) * max (0 : ℝ) ((r₁ - 3) / 2) < 1.2 * ((r₂ - 3) / 2) := by
      linarith
    linarith
  · intro t₁ t₂ b₁ b₂ r₁ r₂ ht hb hr
    unfold calculate_propensity
    apply sigmoid_monotone
    have hdiv : t₁ / 2000 ≤ t₂ / 2000 := by
      exact (div_le_div_iff_of_pos_right (by norm_num)).2 ht
    have hm : min (t₁ / 2000) 1 ≤ min (t₂ / 2000) 1 := min_le_min hdiv le_rfl
    have hx : max (0 : ℝ) ((r₁ - 3) / 2) ≤ max (0 : ℝ) ((r₂ - 3) / 2) :=
      max_le_max le_rfl (by linarith)
    rw [hWL, hWB, hWR]
    have h1 : (0.8 : ℝ) * min (t₁ / 2000) 1 ≤ 0.8 * min (t₂ / 2000) 1 := by linarith
    have h2 : (1.2 : ℝ) * b₁ ≤ 1.2 * b₂ := by linarith
    have h3 : (1.2 : ℝ) * max (0 : ℝ) ((r₁ - 3) / 2) ≤
        1.2 * max (0 : ℝ) ((r₂ - 3) / 2) := by linarith
    linarith

/-! ## Claim C10: propensity range and weight band -/

/-- C10 counterexample: the rating input is not bounded by the claimed
range — at rating 100 the propensity exceeds `sigmoid 3.2`, and at the
extreme admissible point (2000, 1, 5) the propensity equals `sigmoid 3.2`
rather than lying strictly below it. -/
theorem C10_counterexample_rating_unbounded :
    sigmoid 3.2 < calculate_propensity 0 0 100 ∧
    calculate_propensity 2000 1 5 = sigmoid 3.2 := by
  constructor
  · simp only [calculate_propensity]
    apply sigmoid_strictMono
    rw [show W_LENGTH = 0.8 from rfl, show W_BRAND = 1.2 from rfl,
      show W_RATING = 1.2 from rfl, min_def, max_def]
    norm_num
  · simp only [calculate_propensity]
    congr 1
    rw [show W_LENGTH = 0.8 from rfl, show W_BRAND = 1.2 from rfl,
      show W_RATING = 1.2 from rfl, min_def, max_def]
    norm_num

/-- C10 amended: for `text_length ≥ 0`, `brand_score ∈ [0,1]` and
`rating ≤ 5`, the logits are in `[0, 3.2]`, so the propensity lies in the
closed interval `[1/2, sigmoid 3.2]` and below 1, every weight
`1 / propensity` lies in `(1, 2]`, and with `THRESHOLD = 0.90` the
admission test `propensity < THRESHOLD` is equivalent to the propensity
lying in the window `[0.5, 0.90)`. -/
theorem C10_amended_propensity_window :
    ∀ t b r : ℝ, 0 ≤ t → 0 ≤ b → b ≤ 1 → r ≤ 5 →
      1 / 2 ≤ calculate_propensity t b r ∧
      calculate_propensity t b r ≤ sigmoid 3.2 ∧
      calculate_propensity t b r < 1 ∧
      1 < 1 / calculate_propensity t b r ∧
      1 / calculate_propensity t b r ≤ 2 ∧
      (calculate_propensity t b r < ((THRESHOLD : ℚ) : ℝ) ↔
        calculate_propensity t b r ∈ Set.Ico (1 / 2 : ℝ) ((THRESHOLD : ℚ) : ℝ)) := by
  intro t b r ht hb hb1 hr5
  have hcp : calculate_propensity t b r =
      sigmoid (W_LENGTH * min (t / 2000) 1 + W_BRAND * b +
        W_RATING * max 0 ((r - 3) / 2)) := rfl
  have h0 : (0 : ℝ) ≤ min (t / 2000) 1 := le_min (by positivity) (by norm_num)
  have h1 : min (t / 2000) 1 ≤ 1 := min_le_right _ _
  have h2 : (0 : ℝ) ≤ max 0 ((r - 3) / 2) := le_max_left _ _
  have h3 : max (0 : ℝ) ((r - 3) / 2) ≤ 1 := max_le (by norm_num) (by linarith)
  have hWL : W_LENGTH = 0.8 := rfl
  have hWB : W_BRAND = 1.2 := rfl
  have hWR : W_RATING = 1.2 := rfl
  have hlo : 0 ≤ W_LENGTH * min (t / 2000) 1 + W_BRAND * b +
      W_RATING * max 0 ((r - 3) / 2) := by
    rw [hWL, hWB, hWR]
    have a1 : (0 : ℝ) ≤ 0.8 * min (t / 2000) 1 := by positivity
    have a2 : (0 : ℝ) ≤ 1.2 * b := by positivity
    have a3 : (0 : ℝ) ≤ 1.2 * max 0 ((r - 3) / 2) := by positivity
    linarith
  have hhi : W_LENGTH * min (t / 2000) 1 + W_BRAND * b +
      W_RATING * max 0 ((r - 3) / 2) ≤ 3.2 := by
    rw [hWL, hWB, hWR]
    have a1 : (0.8 : ℝ) * min (t / 2000) 1 ≤ 0.8 := by linarith
    have a2 : (1.2 : ℝ) * b ≤ 1.2 := by linarith
    have a3 : (1.2 : ℝ) * max 0 ((r - 3) / 2) ≤ 1.2 := by linarith
    linarith
  have hlower : 1 / 2 ≤ calculate_propensity t b r := by
    rw [hcp, ← sigmoid_zero]
    exact sigmoid_monotone hlo
  have hupper : calculate_propensity t b r ≤ sigmoid 3.2 := by
    rw [hcp]
    exact sigmoid_monotone hhi
  have hlt1 : calculate_propensity t b r < 1 := by rw [hcp]; exact sigmoid_lt_one _
  have hpos : 0 < calculate_propensity t b r := by rw [hcp]; exact sigmoid_pos _
  refine ⟨hlower, hupper, hlt1, one_lt_one_div hpos hlt1, ?_, ?_⟩
  · have h := one_div_le_one_div_of_le (by norm_num : (0 : ℝ) < 1 / 2) hlower
    have h2 : (1 : ℝ) / (1 / 2) = 2 := by norm_num
    rw [h2] at h
    exact h
  · constructor
    · intro h
      exact ⟨hlower, h⟩
    · intro h
      exact h.2

/-- C10 witness: the amended bounds instantiated at the concrete input
(0, 0, 4). -/
theorem C10_amended_window_witness :
    1 / 2 ≤ calculate_propensity 0 0 4 ∧
    calculate_propensity 0 0 4 ≤ sigmoid 3.2 ∧
    calculate_propensity 0 0 4 < 1 ∧
    1 < 1 / calculate_propensity 0 0 4 ∧
    1 / calculate_propensity 0 0 4 ≤ 2 ∧
    (calculate_propensity 0 0 4 < ((THRESHOLD : ℚ) : ℝ) ↔
      calculate_propensity 0 0 4 ∈ Set.Ico (1 / 2 : ℝ) ((THRESHOLD : ℚ) : ℝ)) :=
  C10_amended_propensity_window 0 0 4 (by norm_num) (by norm_num) (by norm_num)
    (by norm_num)

/-! ## Claim C3: brand-key normalization divergence -/

/-- C3: the brand key used to build the popularity map and the brand key
used at filter time diverge on the raw brand "AmazonBasics": the analyzer
canonicalises the spelling to "amazon basics" while the filter leaves
"amazonbasics", so a brand counted in the map under the analyzer's key is
not found again at filter time and silently scores 0.0 even though the map
holds a positive score for it. -/
theorem C3_code_bug_normalization_divergence :
    normalize_brand (some "AmazonBasics") = "amazon basics" ∧
    filter_brand_key "AmazonBasics" = "amazonbasics" ∧
    normalize_brand (some "AmazonBasics") ≠ filter_brand_key "AmazonBasics" ∧
    get_brand_score
        ⟨"B001", "AmazonBasics HDMI Cable", "HDMI cable", some "AmazonBasics", none⟩
        (fun k => if k = normalize_brand (some "AmazonBasics") then some (87 / 100)
          else none) = 0 :=
  ⟨by decide, by decide, by decide, rfl⟩

/-! ## Claim C9: brand popularity degenerate cases -/

/-- C9: a brand counted once scores exactly 0.0; in an all-unique catalog
(every normalized key occurring at most once) every entry of the built
brand map scores exactly 0.0; and no entry of the built map ever reaches
the division-by-`log(max_freq)` with `max_freq ≤ 1` (the `count == 1`
branch makes that division unreachable in the degenerate case), so no entry
is the `none` fault marker. -/
theorem C9_degenerate_popularity_safe :
    (∀ m : ℕ, popularity_score 1 m = some 0) ∧
    (∀ brands : List String, (∀ b, brandKeyCount brands b ≤ 1) →
      ∀ e ∈ build_global_brand_map brands, e.2.2 = some 0) ∧
    (∀ brands : List String, ∀ e ∈ build_global_brand_map brands, e.2.2 ≠ none) := by
  have hpop1 : ∀ m : ℕ, popularity_score 1 m = some 0 := by
    intro m
    simp [popularity_score]
  have hcount : ∀ (brands : List String) (b : String), b ∈ brandKeys brands →
      1 ≤ brandKeyCount brands b := by
    intro brands b hb
    have hmem : b ∈ brands.map (fun s => normalize_brand (some s)) :=
      List.mem_dedup.1 hb
    exact List.count_pos_iff.2 hmem
  refine ⟨hpop1, ?_, ?_⟩
  · intro brands h e he
    rcases List.mem_map.1 he with ⟨b, hb, rfl⟩
    have h1 : brandKeyCount brands b = 1 := le_antisymm (h b) (hcount brands b hb)
    simpa [h1] using hpop1 (max_freq brands)
  · intro brands e he
    rcases List.mem_map.1 he with ⟨b, hb, rfl⟩
    by_cases hc : brandKeyCount brands b = 1
    · simp [hc, hpop1]
    · have h2 : 2 ≤ brandKeyCount brands b := by
        have := hcount brands b hb
        omega
      have hmf : brandKeyCount brands b ≤ max_freq brands :=
        le_foldr_max (List.mem_map_of_mem (brandKeyCount brands) hb)
      have hnot : ¬ max_freq brands ≤ 1 := by omega
      simp [popularity_score, hc, hnot]

/-! ## Claim C7: aggregator failure policy -/

/-- C7: when a batch-phase LLM call returns valid JSON of the wrong shape
(here the object with single key "foo" instead of theme/lesson), the
summary construction of the reduce phase raises an uncaught KeyError and
the whole aggregation run aborts with an error, instead of dropping the
cluster and continuing; by contrast, output with no parseable JSON at all
(`none`) is dropped and processing continues to the end. -/
theorem C7_code_bug_wrong_shape_aborts :
    run_aggregation (fun _ => some (Json.obj [("foo", Json.num 1)]))
        (fun _ => some (Json.obj [("strategy_name", Json.str "s")]))
        [["rule one"]]
      = Except.error "KeyError: theme" ∧
    run_aggregation (fun _ => none) (fun _ => none) [["rule one"], ["rule two"]]
      = Except.ok [] :=
  ⟨rfl, rfl⟩

/-! ## Claim C8: explainer resume idempotence -/

/-- C8: with a fixed deterministic LLM that diagnoses the same
generalized principle "P" for both pairs, the first run records one rule
(the second pair is hash-deduplicated in memory, its signature left
unrecorded); re-running over the same input and the persisted rules adds a
second rule whose rule text equals the first one's — the resume rebuild of
`seen_hashes` reads the dict key `'rule'`, which persisted rules (stored
as insight dicts keyed `'generalized_principle'`) never carry — so the
second run adds a duplicate entry and two persisted rules share the same
content hash. -/
theorem C8_code_bug_resume_duplicates :
    run_explainer (fun s => s) (fun _ _ => some ⟨true, "P"⟩) (fun _ => true) []
        [("q", [⟨"W1", "L1", 1, 5, 0, 0, 1/2, 2⟩, ⟨"W2", "L2", 1, 5, 0, 0, 1/2, 2⟩])]
      = [⟨"q", "W1_vs_L1", "P", none⟩] ∧
    run_explainer (fun s => s) (fun _ _ => some ⟨true, "P"⟩) (fun _ => true)
        [⟨"q", "W1_vs_L1", "P", none⟩]
        [("q", [⟨"W1", "L1", 1, 5, 0, 0, 1/2, 2⟩, ⟨"W2", "L2", 1, 5, 0, 0, 1/2, 2⟩])]
      = [⟨"q", "W1_vs_L1", "P", none⟩, ⟨"q", "W2_vs_L2", "P", none⟩] ∧
    (fun (r : RuleRec) => r.generalized_principle) ⟨"q", "W1_vs_L1", "P", none⟩ =
      (fun (r : RuleRec) => r.generalized_principle) ⟨"q", "W2_vs_L2", "P", none⟩ :=
  ⟨rfl, rfl, rfl⟩

/-! ## Claim C5: visibility scorer -/

/-- The citation divisor is at least 1. -/
theorem citation_count_pos (s : List Char) : 0 < citation_count s := by
  show 0 < (if List.count '[' s = 0 then 1 else List.count '[' s)
  split <;> omega

/-- The scoring loop accumulates exactly the positional-decay sum of the
sentences containing the item id. -/
theorem visTermSum_eq (item : List Char) (n : ℕ) :
    ∀ (l : List (ℕ × List Char)) (t : ℝ),
      visTermSum item n l t = t +
        (l.map (fun p =>
          if containsSeq p.2 item then
            Real.exp (-1 * (p.1 : ℝ) / (max n 1 : ℕ)) / citation_count p.2
          else 0)).sum := by
  intro l
  induction l with
  | nil => intro t; simp [visTermSum]
  | cons hd rest ih =>
    intro t
    obtain ⟨i, s⟩ := hd
    simp only [visTermSum, List.map_cons, List.sum_cons]
    rw [ih]
    by_cases hc : containsSeq s item <;> (simp [hc]; try ring)

/-- Rounding to 4 decimals preserves nonnegativity. -/
theorem round4R_nonneg {x : ℝ} (h : 0 ≤ x) : 0 ≤ round4R x := by
  unfold round4R
  have hr : (0 : ℤ) ≤ round (x * 10000) := by
    rw [round_eq]
    refine Int.le_floor.2 ?_
    push_cast
    nlinarith
  have hc : (0 : ℝ) ≤ ((round (x * 10000) : ℤ) : ℝ) := by exact_mod_cast hr
  positivity

/-- C5: the two visibility-scorer implementations (in `run_simulator.py`
and `verify_optimization.py`) agree on every input; empty (or null) text
scores exactly 0.0; the score is always nonnegative; and for non-empty
text the score equals the 4-decimal rounding of the sum, over the
0-indexed sentences of the terminator-based split that contain the literal
item id, of `exp(-i / N) / c` with `N = max(sentence_count, 1)` and `c`
the bracket-citation count of the sentence (at least 1). -/
theorem C5_visibility_scorer_spec :
    (∀ text id : List Char,
      run_simulator.calculate_visibility_score text id =
        verify_optimization.calculate_visibility_score text id) ∧
    (∀ id : List Char, run_simulator.calculate_visibility_score [] id = 0) ∧
    (∀ text id : List Char, 0 ≤ run_simulator.calculate_visibility_score text id) ∧
    (∀ text id : List Char, text ≠ [] →
      run_simulator.calculate_visibility_score text id =
        round4R (((splitSentences text).enum.map (fun p =>
          if containsSeq p.2 id then
            Real.exp (-(p.1 : ℝ) / (max (splitSentences text).length 1 : ℕ)) /
              citation_count p.2
          else 0)).sum)) := by
  have hsum : ∀ text id : List Char, text ≠ [] →
      run_simulator.calculate_visibility_score text id =
        round4R (((splitSentences text).enum.map (fun p =>
          if containsSeq p.2 id then
            Real.exp (-(p.1 : ℝ) / (max (splitSentences text).length 1 : ℕ)) /
              citation_count p.2
          else 0)).sum) := by
    intro text id hne
    unfold run_simulator.calculate_visibility_score
    rw [if_neg hne, visTermSum_eq, zero_add]
    congr 1
    congr 1
    apply List.map_congr_left
    intro p _
    split
    · congr 1
      ring
    · rfl
  refine ⟨fun _ _ => rfl, fun _ => rfl, ?_, hsum⟩
  intro text id
  by_cases hne : text = []
  · subst hne
    simp [run_simulator.calculate_visibility_score]
  · rw [hsum text id hne]
    apply round4R_nonneg
    apply List.sum_nonneg
    intro x hx
    rcases List.mem_map.1 hx with ⟨p, _, rfl⟩
    split
    · apply div_nonneg (Real.exp_pos _).le
      exact_mod_cast Nat.zero_le _
    · exact le_rfl

/-! ## Helper lemmas on the stable descending sort and pair enumeration -/

/-- Inserting adds the new element to the multiset. -/
theorem insDescBy_perm (key : α → ℚ) (r : α) :
    ∀ s : List α, (insDescBy key r s).Perm (r :: s) := by
  intro s
  induction s with
  | nil => simp [insDescBy]
  | cons x xs ih =>
    unfold insDescBy
    split
    · exact (ih.cons x).trans (List.Perm.swap r x xs)
    · exact List.Perm.refl _

/-- The stable descending sort permutes its input. -/
theorem sortDescBy_perm (key : α → ℚ) :
    ∀ l : List α, (sortDescBy key l).Perm l := by
  intro l
  induction l with
  | nil => exact List.Perm.refl _
  | cons x xs ih =>
    exact ((insDescBy_perm key x (sortDescBy key xs)).trans (ih.cons x))

/-- Members of an insertion. -/
theorem mem_insDescBy {key : α → ℚ} {r a : α} {s : List α} :
    a ∈ insDescBy key r s ↔ a = r ∨ a ∈ s :=
  ⟨fun h => by simpa using (insDescBy_perm key r s).mem_iff.1 h,
   fun h => (insDescBy_perm key r s).mem_iff.2 (by simpa using h)⟩

/-- Insertion preserves descending sortedness. -/
theorem insDescBy_pairwise (key : α → ℚ) (r : α) :
    ∀ s : List α, s.Pairwise (fun a b => key b ≤ key a) →
      (insDescBy key r s).Pairwise (fun a b => key b ≤ key a) := by
  intro s
  induction s with
  | nil => intro _; simp [insDescBy]
  | cons x xs ih =>
    intro hs
    rw [List.pairwise_cons] at hs
    unfold insDescBy
    split
    · rename_i hlt
      rw [List.pairwise_cons]
      refine ⟨?_, ih hs.2⟩
      intro b hb
      rcases mem_insDescBy.1 hb with rfl | hbs
      · exact hlt.le
      · exact hs.1 b hbs
    · rename_i hge
      rw [List.pairwise_cons]
      refine ⟨?_, List.pairwise_cons.2 hs⟩
      intro b hb
      rcases List.mem_cons.1 hb with rfl | hbs
      · exact le_of_not_lt hge
      · exact le_trans (hs.1 b hbs) (le_of_not_lt hge)

/-- The stable descending sort is sorted (descending) on its key. -/
theorem sortDescBy_pairwise (key : α → ℚ) :
    ∀ l : List α, (sortDescBy key l).Pairwise (fun a b => key b ≤ key a) := by
  intro l
  induction l with
  | nil => simp [sortDescBy]
  | cons x xs ih => exact insDescBy_pairwise key x _ ih

/-- Filtering an insertion on one key value: the inserted element lands in
front of the equal-key elements already present (it is only moved past
strictly larger keys). -/
theorem insDescBy_filter_key (key : α → ℚ) (v : ℚ) (r : α) :
    ∀ s : List α,
      (insDescBy key r s).filter (fun x => decide (key x = v)) =
        if key r = v then r :: s.filter (fun x => decide (key x = v))
        else s.filter (fun x => decide (key x = v)) := by
  intro s
  induction s with
  | nil =>
    show List.filter _ [r] = _
    by_cases h : key r = v <;> simp [List.filter_cons, h]
  | cons x xs ih =>
    show List.filter _ (if key r < key x then x :: insDescBy key r xs else r :: x :: xs) = _
    by_cases hlt : key r < key x
    · rw [if_pos hlt]
      by_cases hrv : key r = v
      · have hxv : ¬ key x = v := by
          intro hxe
          rw [hrv] at hlt
          rw [hxe] at hlt
          exact lt_irrefl v hlt
        simp [List.filter_cons, ih, hrv, hxv]
      · simp [List.filter_cons, ih, hrv]
    · rw [if_neg hlt]
      by_cases hrv : key r = v
      · simp [List.filter_cons, hrv]
      · simp [List.filter_cons, hrv]

/-- Stability of the sort: for every key value, the elements carrying that
value appear in the sorted output in their input order. -/
theorem sortDescBy_filter_key (key : α → ℚ) (v : ℚ) :
    ∀ l : List α,
      (sortDescBy key l).filter (fun x => decide (key x = v)) =
        l.filter (fun x => decide (key x = v)) := by
  intro l
  induction l with
  | nil => rfl
  | cons x xs ih =>
    show (insDescBy key x (sortDescBy key xs)).filter _ = _
    rw [insDescBy_filter_key, ih, List.filter_cons]
    split
    · rename_i h; simp [h]
    · rename_i h; simp [h]

/-- Insertion commutes with a key-preserving map. -/
theorem insDescBy_map (f : α → β) (keyb : β → ℚ) (keya : α → ℚ)
    (hf : ∀ a, keyb (f a) = keya a) (r : α) :
    ∀ s : List α, insDescBy keyb (f r) (s.map f) = (insDescBy keya r s).map f := by
  intro s
  induction s with
  | nil => simp [insDescBy]
  | cons x xs ih =>
    simp only [List.map_cons]
    unfold insDescBy
    rw [hf r, hf x]
    split
    · simp only [List.map_cons]
      rw [ih]
    · simp [List.map_cons]

/-- Sorting commutes with a key-preserving map. -/
theorem sortDescBy_map (f : α → β) (keyb : β → ℚ) (keya : α → ℚ)
    (hf : ∀ a, keyb (f a) = keya a) :
    ∀ l : List α, sortDescBy keyb (l.map f) = (sortDescBy keya l).map f := by
  intro l
  induction l with
  | nil => rfl
  | cons x xs ih =>
    simp only [List.map_cons]
    show insDescBy keyb (f x) (sortDescBy keyb (xs.map f)) = _
    rw [ih, insDescBy_map f keyb keya hf]
    rfl

/-- Membership in the ordered-pair enumeration is exactly an index pair
`i < j`. -/
theorem mem_orderedPairs {pr : α × α} :
    ∀ l : List α, pr ∈ orderedPairs l ↔
      ∃ i j : ℕ, i < j ∧ l[i]? = some pr.1 ∧ l[j]? = some pr.2 := by
  intro l
  induction l with
  | nil =>
    simp only [orderedPairs, List.not_mem_nil, false_iff]
    rintro ⟨i, j, _, hi, _⟩
    simp at hi
  | cons x rest ih =>
    simp only [orderedPairs, List.mem_append, List.mem_map]
    constructor
    · rintro (⟨y, hy, rfl⟩ | hmem)
      · rcases List.getElem?_of_mem hy with ⟨k, hk⟩
        exact ⟨0, k + 1, Nat.succ_pos k, by simp, by simpa using hk⟩
      · rcases ih.1 hmem with ⟨i, j, hij, hi, hj⟩
        exact ⟨i + 1, j + 1, Nat.succ_lt_succ hij, by simpa using hi, by simpa using hj⟩
    · rintro ⟨i, j, hij, hi, hj⟩
      cases i with
      | zero =>
        cases j with
        | zero => exact absurd hij (lt_irrefl 0)
        | succ k =>
          left
          simp only [List.getElem?_cons_zero, Option.some.injEq] at hi
          simp only [List.getElem?_cons_succ] at hj
          refine ⟨pr.2, List.getElem?_mem hj, ?_⟩
          rw [hi]
      | succ i' =>
        cases j with
        | zero => exact absurd hij (by omega)
        | succ j' =>
          right
          refine ih.2 ⟨i', j', Nat.lt_of_succ_lt_succ hij, ?_, ?_⟩
          · simpa using hi
          · simpa using hj

/-- Characterisation of one admitted pair: `mkPair` succeeds exactly when
both endpoints have propensity data, the winner clears the visibility floor
(at least 0.1), the visibility gap is at least 0.2, and the winner's
propensity is strictly below `THRESHOLD`; the emitted record carries the
derived ranks and weight `1 / w_prop`. -/
theorem mkPair_eq_some_iff (props : String → Option ℚ) (vis : String → ℚ)
    (w l : ℕ × RankEntry) (p : CausalPair) :
    mkPair props vis w l = some p ↔
      ∃ w_prop : ℚ, props w.2.item_id = some w_prop ∧
        (props l.2.item_id).isSome = true ∧
        (0.1 : ℚ) ≤ vis w.2.item_id ∧
        (0.2 : ℚ) ≤ vis w.2.item_id - vis l.2.item_id ∧
        w_prop < THRESHOLD ∧
        p = { winner_id := w.2.item_id, loser_id := l.2.item_id,
              winner_rank := (w.1 : ℤ) + 1, loser_rank := (l.1 : ℤ) + 1,
              winner_vis := vis w.2.item_id, loser_vis := vis l.2.item_id,
              winner_propensity := w_prop, weight := 1 / w_prop } := by
  unfold mkPair
  cases hw : props w.2.item_id with
  | none => simp
  | some wp =>
    cases hl : props l.2.item_id with
    | none => simp
    | some lp =>
      dsimp only
      constructor
      · intro h
        split_ifs at h with h1 h2 h3 <;>
          first
          | exact Option.noConfusion h
          | (obtain rfl := Option.some.inj h
             exact ⟨wp, rfl, by simp, not_lt.1 h1, not_lt.1 h2, h3, rfl⟩)
      · rintro ⟨w_prop, hww, _, hv1, hv2, hth, rfl⟩
        obtain rfl := Option.some.inj hww
        rw [if_neg (not_lt.2 hv1), if_neg (not_lt.2 hv2), if_pos hth]

/-- Membership in a query's admitted pairs, via sorted positions `i < j`. -/
theorem mem_query_pairs (rs : List RankEntry) (props : String → Option ℚ)
    (p : CausalPair) :
    p ∈ query_pairs rs props ↔
      ∃ i j : ℕ, ∃ w_entry l_entry : RankEntry, ∃ w_prop : ℚ,
        i < j ∧
        (sorted_items rs)[i]? = some w_entry ∧
        (sorted_items rs)[j]? = some l_entry ∧
        props w_entry.item_id = some w_prop ∧
        (props l_entry.item_id).isSome = true ∧
        (0.1 : ℚ) ≤ item_vis_of (sorted_items rs) w_entry.item_id ∧
        (0.2 : ℚ) ≤ item_vis_of (sorted_items rs) w_entry.item_id -
          item_vis_of (sorted_items rs) l_entry.item_id ∧
        w_prop < THRESHOLD ∧
        p = { winner_id := w_entry.item_id, loser_id := l_entry.item_id,
              winner_rank := (i : ℤ) + 1, loser_rank := (j : ℤ) + 1,
              winner_vis := item_vis_of (sorted_items rs) w_entry.item_id,
              loser_vis := item_vis_of (sorted_items rs) l_entry.item_id,
              winner_propensity := w_prop, weight := 1 / w_prop } := by
  unfold query_pairs
  rw [List.mem_filterMap]
  constructor
  · rintro ⟨⟨wpr, lpr⟩, hpr, hmk⟩
    rcases (mem_orderedPairs _).1 hpr with ⟨i, j, hij, hi, hj⟩
    rw [List.getElem?_enum] at hi hj
    cases he : (sorted_items rs)[i]? with
    | none => rw [he] at hi; simp at hi
    | some w_entry =>
      cases hf : (sorted_items rs)[j]? with
      | none => rw [hf] at hj; simp at hj
      | some l_entry =>
        rw [he, Option.map_some'] at hi
        rw [hf, Option.map_some'] at hj
        obtain rfl := Option.some.inj hi
        obtain rfl := Option.some.inj hj
        rcases (mkPair_eq_some_iff _ _ _ _ _).1 hmk with
          ⟨w_prop, hww, hls, hv1, hv2, hth, hp⟩
        exact ⟨i, j, w_entry, l_entry, w_prop, hij, he, hf, hww, hls, hv1, hv2, hth, hp⟩
  · rintro ⟨i, j, w_entry, l_entry, w_prop, hij, he, hf, hww, hls, hv1, hv2, hth, hp⟩
    refine ⟨((i, w_entry), (j, l_entry)), ?_, ?_⟩
    · refine (mem_orderedPairs _).2 ⟨i, j, hij, ?_, ?_⟩
      · rw [List.getElem?_enum, he]
        rfl
      · rw [List.getElem?_enum, hf]
        rfl
    · exact (mkPair_eq_some_iff _ _ _ _ _).2 ⟨w_prop, hww, hls, hv1, hv2, hth, hp⟩

/-! ## Claim C6: rank derivation -/

/-- C6: the filter derives ranks by a stable descending sort on visibility:
on the fixture with scores [0.5, 0.9, 0.1] for items [A, B, C] the derived
ranks are B:1, A:2, C:3 (whatever upstream ranks were supplied); in
general the sorted order is a permutation of the input, descending in
visibility, with ties keeping input order; derived ranks are exactly the
positions 1..n; the upstream `rank` field has no influence on the derived
ranks; and every emitted pair's winner rank is strictly below its loser
rank. -/
theorem C6_rank_derivation :
    derivedRanks [⟨"A", 0.5, 7⟩, ⟨"B", 0.9, 9⟩, ⟨"C", 0.1, 4⟩] =
      [("B", 1), ("A", 2), ("C", 3)] ∧
    (∀ rs : List RankEntry, (sorted_items rs).Perm rs) ∧
    (∀ rs : List RankEntry, (sorted_items rs).Pairwise
      (fun a b => b.visibility_score ≤ a.visibility_score)) ∧
    (∀ (rs : List RankEntry) (v : ℚ),
      (sorted_items rs).filter (fun r => decide (r.visibility_score = v)) =
        rs.filter (fun r => decide (r.visibility_score = v))) ∧
    (∀ rs : List RankEntry, (derivedRanks rs).map Prod.snd =
      (List.range rs.length).map (fun i : ℕ => (i : ℤ) + 1)) ∧
    (∀ (rs : List RankEntry) (g : RankEntry → ℤ),
      derivedRanks (rs.map (fun r => { r with rank := g r })) = derivedRanks rs) ∧
    (∀ (rs : List RankEntry) (props : String → Option ℚ),
      ∀ p ∈ query_pairs rs props, p.winner_rank < p.loser_rank) := by
  refine ⟨?_, fun rs => sortDescBy_perm _ rs, fun rs => sortDescBy_pairwise _ rs,
    fun rs v => sortDescBy_filter_key _ v rs, ?_, ?_, ?_⟩
  · norm_num [derivedRanks, sorted_items, sortDescBy, insDescBy, List.enum,
      List.enumFrom]
  · intro rs
    have h1 : (derivedRanks rs).map Prod.snd =
        ((sorted_items rs).enum.map Prod.fst).map (fun i : ℕ => (i : ℤ) + 1) := by
      unfold derivedRanks
      rw [List.map_map, List.map_map]
      rfl
    rw [h1, List.enum_map_fst,
      show (sorted_items rs).length = rs.length from (sortDescBy_perm _ rs).length_eq]
  · intro rs g
    unfold derivedRanks sorted_items
    rw [sortDescBy_map (fun r : RankEntry => { r with rank := g r })
        (fun x : RankEntry => x.visibility_score) (fun x : RankEntry => x.visibility_score)
        (fun a => rfl) rs]
    rw [List.enum_map, List.map_map]
    rfl
  · intro rs props p hp
    rcases (mem_query_pairs rs props p).1 hp with
      ⟨i, j, w_entry, l_entry, w_prop, hij, _, _, _, _, _, _, _, hp2⟩
    rw [hp2]
    show (i : ℤ) + 1 < (j : ℤ) + 1
    have hij2 : (i : ℤ) < j := by exact_mod_cast hij
    omega

/-! ## Claim C1: admission criteria of the causal pair filter -/

/-- C1 counterexample: the filter admits pairs at the boundary values.
With winner visibility exactly 0.1 (query q1) and with a visibility gap of
exactly 0.2 (query q2), pairs are emitted, although the claimed criteria
require the winner visibility to exceed 0.1 and the gap to exceed 0.2
strictly. -/
theorem C1_counterexample_boundary :
    apply_pairwise_filter
        [⟨"q1", [⟨"A", 0.1, 1⟩, ⟨"B", -0.15, 2⟩]⟩,
         ⟨"q2", [⟨"C", 0.5, 1⟩, ⟨"D", 0.3, 2⟩]⟩]
        (fun _ => some 0.5)
      = [("q1", [⟨"A", "B", 1, 2, 0.1, -0.15, 0.5, 2⟩]),
         ("q2", [⟨"C", "D", 1, 2, 0.5, 0.3, 0.5, 2⟩])] ∧
    ¬ ((0.1 : ℚ) > 0.1) ∧
    ¬ ((0.5 : ℚ) - 0.3 > 0.2) := by
  refine ⟨?_, by norm_num, by norm_num⟩
  norm_num +decide [apply_pairwise_filter, query_pairs, sorted_items, sortDescBy,
    insDescBy, orderedPairs, mkPair, item_vis_of, THRESHOLD, List.enum,
    List.enumFrom, List.filterMap, List.filter, List.getLast?]

/-- C1 amended: a pair `(winner i, loser j)` (with `i` derived-ranked above
`j` and both having propensity data) is emitted exactly when the winner's
visibility is at least the floor 0.1, the visibility gap is at least 0.2,
and the winner's propensity is strictly below `THRESHOLD`; the emitted pair
carries `weight = 1 / winner_propensity` and the derived ranks; emitted
pairs are grouped under their query, and a query with zero admitted pairs
produces no group. -/
theorem C1_amended_admission :
    (∀ (rs : List RankEntry) (props : String → Option ℚ) (p : CausalPair),
      p ∈ query_pairs rs props ↔
        ∃ i j : ℕ, ∃ w_entry l_entry : RankEntry, ∃ w_prop : ℚ,
          i < j ∧
          (sorted_items rs)[i]? = some w_entry ∧
          (sorted_items rs)[j]? = some l_entry ∧
          props w_entry.item_id = some w_prop ∧
          (props l_entry.item_id).isSome = true ∧
          (0.1 : ℚ) ≤ item_vis_of (sorted_items rs) w_entry.item_id ∧
          (0.2 : ℚ) ≤ item_vis_of (sorted_items rs) w_entry.item_id -
            item_vis_of (sorted_items rs) l_entry.item_id ∧
          w_prop < THRESHOLD ∧
          p = { winner_id := w_entry.item_id, loser_id := l_entry.item_id,
                winner_rank := (i : ℤ) + 1, loser_rank := (j : ℤ) + 1,
                winner_vis := item_vis_of (sorted_items rs) w_entry.item_id,
                loser_vis := item_vis_of (sorted_items rs) l_entry.item_id,
                winner_propensity := w_prop, weight := 1 / w_prop }) ∧
    (∀ (logs : List QueryLog) (props : String → Option ℚ) (q : String)
        (ps : List CausalPair),
      (q, ps) ∈ apply_pairwise_filter logs props →
        ps ≠ [] ∧ ∃ e ∈ logs, e.query = q ∧ ps = query_pairs e.rankings props) ∧
    (∀ (logs : List QueryLog) (props : String → Option ℚ),
      ∀ e ∈ logs, query_pairs e.rankings props ≠ [] →
        (e.query, query_pairs e.rankings props) ∈ apply_pairwise_filter logs props) := by
  refine ⟨fun rs props p => mem_query_pairs rs props p, ?_, ?_⟩
  · intro logs props q ps hmem
    unfold apply_pairwise_filter at hmem
    rcases List.mem_filterMap.1 hmem with ⟨e, he, heq⟩
    dsimp only at heq
    split_ifs at heq with h1 h2 <;>
      first
      | exact Option.noConfusion heq
      | (have hpq := Option.some.inj heq
         rw [Prod.mk.injEq] at hpq
         refine ⟨?_, e, he, hpq.1, hpq.2.symm⟩
         rw [← hpq.2]
         exact h2)
  · intro logs props e he hne
    unfold apply_pairwise_filter
    refine List.mem_filterMap.2 ⟨e, he, ?_⟩
    dsimp only
    have hr : e.rankings ≠ [] := by
      intro h0
      apply hne
      rw [h0]
      rfl
    rw [if_neg hr, if_neg hne]

/-! ## Helper lemmas for the target selector -/

/-- Rounding to 2 decimals is monotone. -/
theorem round2_mono {x y : ℚ} (h : x ≤ y) : round2 x ≤ round2 y := by
  unfold round2
  have hr : round (x * 100) ≤ round (y * 100) := by
    rw [round_eq, round_eq]
    exact Int.floor_le_floor (by linarith)
  have hc : ((round (x * 100) : ℤ) : ℚ) ≤ ((round (y * 100) : ℤ) : ℚ) := by
    exact_mod_cast hr
  linarith

/-- Values already on the 2-decimal grid are fixed by `round2`. -/
theorem round2_round2 (x : ℚ) : round2 (round2 x) = round2 x := by
  unfold round2
  rw [div_mul_cancel₀ _ (by norm_num : (100 : ℚ) ≠ 0), round_intCast]

/-- In a candidate list with pairwise distinct ids, an id determines the
candidate. -/
theorem pairwise_ne_unique {l : List Candidate}
    (hpw : l.Pairwise (fun a b => a.item_id ≠ b.item_id)) :
    ∀ c ∈ l, ∀ e ∈ l, c.item_id = e.item_id → c = e := by
  induction l with
  | nil => intro c hc; cases hc
  | cons x xs ih =>
    rw [List.pairwise_cons] at hpw
    intro c hc e he heq
    rcases List.mem_cons.1 hc with rfl | hc2
    · rcases List.mem_cons.1 he with rfl | he2
      · rfl
      · exact absurd heq (hpw.1 e he2)
    · rcases List.mem_cons.1 he with rfl | he2
      · exact absurd heq.symm (hpw.1 c hc2)
      · exact ih hpw.2 c hc2 e he2 heq

/-- One step of the selector loop preserves the invariant. -/
theorem selStep_inv (vr : String → String → Option RuleInfo) (q : String)
    (ps : List CausalPair) (cands : List Candidate) (p : CausalPair)
    (h : SelInv vr q ps cands) :
    SelInv vr q (ps ++ [p]) (selStep vr q cands p) := by
  obtain ⟨hpw, hbuild, hmax, hcomp⟩ := h
  have hskip : ∀ (hside : (vr q p.loser_id).isSome = true → 3 < p.loser_rank → False),
      SelInv vr q (ps ++ [p]) cands := by
    intro hside
    refine ⟨hpw, ?_, ?_, ?_⟩
    · intro c hc
      rcases hbuild c hc with ⟨p2, hp2, rest⟩
      exact ⟨p2, List.mem_append_left _ hp2, rest⟩
    · intro c hc p2 hp2 hs hr hid
      rcases List.mem_append.1 hp2 with hp3 | hp3
      · exact hmax c hc p2 hp3 hs hr hid
      · rcases List.mem_singleton.1 hp3 with rfl
        exact (hside hs hr).elim
    · intro p2 hp2 hs hr
      rcases List.mem_append.1 hp2 with hp3 | hp3
      · exact hcomp p2 hp3 hs hr
      · rcases List.mem_singleton.1 hp3 with rfl
        exact (hside hs hr).elim
  unfold selStep
  cases hvr : vr q p.loser_id with
  | none =>
    exact hskip (fun hs _ => by simp [hvr] at hs)
  | some info =>
    dsimp only
    by_cases hrank : p.loser_rank ≤ 3
    · rw [if_pos hrank]
      exact hskip (fun _ hr => absurd hr (not_lt.2 hrank))
    · rw [if_neg hrank]
      have hr3 : 3 < p.loser_rank := not_le.1 hrank
      cases hfind : cands.find? (fun x => x.item_id == p.loser_id) with
      | none =>
        dsimp only
        have hnone : ∀ x ∈ cands, x.item_id ≠ p.loser_id := by
          intro x hx
          have := List.find?_eq_none.1 hfind x hx
          simpa using this
        refine ⟨?_, ?_, ?_, ?_⟩
        · rw [List.pairwise_append]
          refine ⟨hpw, List.pairwise_singleton _ _, ?_⟩
          intro a ha b hb
          rcases List.mem_singleton.1 hb with rfl
          exact hnone a ha
        · intro c hc
          rcases List.mem_append.1 hc with hc2 | hc2
          · rcases hbuild c hc2 with ⟨p2, hp2, rest⟩
            exact ⟨p2, List.mem_append_left _ hp2, rest⟩
          · rcases List.mem_singleton.1 hc2 with rfl
            exact ⟨p, List.mem_append_right _ (List.mem_singleton_self p), info,
              hvr, hr3, rfl⟩
        · intro c hc p2 hp2 hs hr hid
          rcases List.mem_append.1 hc with hc2 | hc2
          · rcases List.mem_append.1 hp2 with hp3 | hp3
            · exact hmax c hc2 p2 hp3 hs hr hid
            · rcases List.mem_singleton.1 hp3 with rfl
              exact absurd hid.symm (hnone c hc2)
          · rcases List.mem_singleton.1 hc2 with rfl
            rcases List.mem_append.1 hp2 with hp3 | hp3
            · rcases hcomp p2 hp3 hs hr with ⟨c2, hc3, hcid⟩
              exact absurd (hcid.trans hid) (hnone c2 hc3)
            · rcases List.mem_singleton.1 hp3 with rfl
              exact le_refl _
        · intro p2 hp2 hs hr
          rcases List.mem_append.1 hp2 with hp3 | hp3
          · rcases hcomp p2 hp3 hs hr with ⟨c2, hc3, hcid⟩
            exact ⟨c2, List.mem_append_left _ hc3, hcid⟩
          · rcases List.mem_singleton.1 hp3 with rfl
            exact ⟨mkCandidate p2 info,
              List.mem_append_right _ (List.mem_singleton_self _), rfl⟩
      | some existing =>
        dsimp only
        have hex_mem : existing ∈ cands := List.mem_of_find?_eq_some hfind
        have hex_id : existing.item_id = p.loser_id := by
          have := List.find?_some hfind
          simpa using this
        have hex_grid : ∃ p0, p0 ∈ ps ∧
            existing.opportunity_score = round2 (rawOppScore p0) := by
          rcases hbuild existing hex_mem with ⟨p0, hp0, info0, _, _, hbe⟩
          exact ⟨p0, hp0, by rw [hbe]; rfl⟩
        by_cases hcmp : existing.opportunity_score < rawOppScore p
        · rw [if_pos hcmp]
          have hperm : cands.Perm (existing :: cands.erase existing) :=
            List.perm_cons_erase hex_mem
          have hpw2 : (existing :: cands.erase existing).Pairwise
              (fun a b => a.item_id ≠ b.item_id) :=
            (hperm.pairwise_iff (fun hab => Ne.symm hab)).1 hpw
          rw [List.pairwise_cons] at hpw2
          have herase_ne : ∀ x ∈ cands.erase existing, x.item_id ≠ p.loser_id := by
            intro x hx heq
            exact hpw2.1 x hx (hex_id.trans heq.symm)
          have hstep_le : existing.opportunity_score ≤ round2 (rawOppScore p) := by
            rcases hex_grid with ⟨p0, _, hg⟩
            calc existing.opportunity_score
                = round2 existing.opportunity_score := by rw [hg, round2_round2]
              _ ≤ round2 (rawOppScore p) := round2_mono hcmp.le
          refine ⟨?_, ?_, ?_, ?_⟩
          · rw [List.pairwise_append]
            refine ⟨hpw2.2, List.pairwise_singleton _ _, ?_⟩
            intro a ha b hb
            rcases List.mem_singleton.1 hb with rfl
            exact herase_ne a ha
          · intro c hc
            rcases List.mem_append.1 hc with hc2 | hc2
            · rcases hbuild c (List.mem_of_mem_erase hc2) with ⟨p2, hp2, rest⟩
              exact ⟨p2, List.mem_append_left _ hp2, rest⟩
            · rcases List.mem_singleton.1 hc2 with rfl
              exact ⟨p, List.mem_append_right _ (List.mem_singleton_self p), info,
                hvr, hr3, rfl⟩
          · intro c hc p2 hp2 hs hr hid
            rcases List.mem_append.1 hc with hc2 | hc2
            · rcases List.mem_append.1 hp2 with hp3 | hp3
              · exact hmax c (List.mem_of_mem_erase hc2) p2 hp3 hs hr hid
              · rcases List.mem_singleton.1 hp3 with rfl
                exact absurd hid.symm (herase_ne c hc2)
            · rcases List.mem_singleton.1 hc2 with rfl
              rcases List.mem_append.1 hp2 with hp3 | hp3
              · have hid2 : p2.loser_id = existing.item_id := by
                  rw [hex_id]
                  exact hid
                have h1 : round2 (rawOppScore p2) ≤ existing.opportunity_score :=
                  hmax existing hex_mem p2 hp3 hs hr hid2
                exact le_trans h1 hstep_le
              · rcases List.mem_singleton.1 hp3 with rfl
                exact le_refl _
          · intro p2 hp2 hs hr
            rcases List.mem_append.1 hp2 with hp3 | hp3
            · rcases hcomp p2 hp3 hs hr with ⟨c2, hc3, hcid⟩
              rcases List.mem_cons.1 (hperm.mem_iff.1 hc3) with rfl | hc4
              · refine ⟨mkCandidate p info,
                  List.mem_append_right _ (List.mem_singleton_self _), ?_⟩
                show p.loser_id = p2.loser_id
                rw [← hcid, hex_id]
              · exact ⟨c2, List.mem_append_left _ hc4, hcid⟩
            · rcases List.mem_singleton.1 hp3 with rfl
              exact ⟨mkCandidate p2 info,
                List.mem_append_right _ (List.mem_singleton_self _), rfl⟩
        · rw [if_neg hcmp]
          have hkeep : round2 (rawOppScore p) ≤ existing.opportunity_score := by
            rcases hex_grid with ⟨p0, _, hg⟩
            calc round2 (rawOppScore p)
                ≤ round2 existing.opportunity_score := round2_mono (not_lt.1 hcmp)
              _ = existing.opportunity_score := by rw [hg, round2_round2]
          refine ⟨hpw, ?_, ?_, ?_⟩
          · intro c hc
            rcases hbuild c hc with ⟨p2, hp2, rest⟩
            exact ⟨p2, List.mem_append_left _ hp2, rest⟩
          · intro c hc p2 hp2 hs hr hid
            rcases List.mem_append.1 hp2 with hp3 | hp3
            · exact hmax c hc p2 hp3 hs hr hid
            · rcases List.mem_singleton.1 hp3 with rfl
              have hce : c = existing :=
                pairwise_ne_unique hpw c hc existing hex_mem (hid ▸ hex_id.symm)
              rw [hce]
              exact hkeep
          · intro p2 hp2 hs hr
            rcases List.mem_append.1 hp2 with hp3 | hp3
            · exact hcomp p2 hp3 hs hr
            · rcases List.mem_singleton.1 hp3 with rfl
              exact ⟨existing, hex_mem, hex_id⟩

/-- The invariant holds after folding the whole pair list. -/
theorem selFold_inv (vr : String → String → Option RuleInfo) (q : String) :
    ∀ (ps prev : List CausalPair) (cands : List Candidate),
      SelInv vr q prev cands →
      SelInv vr q (prev ++ ps) (ps.foldl (selStep vr q) cands) := by
  intro ps
  induction ps with
  | nil =>
    intro prev cands h
    simpa using h
  | cons p rest ih =>
    intro prev cands h
    have h1 := selStep_inv vr q prev cands p h
    have h2 := ih (prev ++ [p]) _ h1
    simpa [List.append_assoc] using h2

/-- The invariant at the start of a query. -/
theorem selInv_nil (vr : String → String → Option RuleInfo) (q : String) :
    SelInv vr q [] [] :=
  ⟨List.Pairwise.nil, fun c hc => absurd hc (List.not_mem_nil c),
   fun c hc => absurd hc (List.not_mem_nil c),
   fun p hp => absurd hp (List.not_mem_nil p)⟩

/-! ## Claim C4: target selector deduplication -/

/-- C4 counterexample: the deduplication compares each new raw score with
the stored (2-decimal rounded) score of the existing candidate, so with raw
opportunity scores [2.004, 2.001] for the same loser the later, smaller
2.001 entry (beaten_by "W2") replaces the 2.004 one — the retained
candidate does not have the maximal raw `rank_gap × weight`. -/
theorem C4_counterexample_rounded_comparison :
    select_query_targets (fun _ _ => some ⟨none, none⟩) "q"
        [⟨"W1", "L", 4, 5, 0, 0, 1/2, 2.004⟩, ⟨"W2", "L", 4, 5, 0, 0, 1/2, 2.001⟩]
      = [⟨"L", 5, 0, 0, "W2", 2, "N/A", "N/A"⟩] ∧
    rawOppScore (⟨"W2", "L", 4, 5, 0, 0, 1/2, 2.001⟩ : CausalPair) <
      rawOppScore (⟨"W1", "L", 4, 5, 0, 0, 1/2, 2.004⟩ : CausalPair) := by
  constructor
  · norm_num +decide [select_query_targets, selStep, mkCandidate, rawOppScore,
      round2, round4, sortDescBy, insDescBy, List.foldl, List.find?,
      List.erase_cons, round_eq]
  · norm_num [rawOppScore]

/-- C4 amended: the selector keeps at most one candidate per loser id; the
retained candidate is built from an admitted diagnosed pair and carries the
maximal stored score: its stored `opportunity_score` (the 2-decimal
rounding of its pair's raw `rank_gap × weight`) dominates the rounded raw
score of every admitted diagnosed pair for that loser (the comparison in
the code is raw-vs-stored, so only the rounded scores are maximised — see
the counterexample); with raw scores [3.0, 7.5, 5.0] exactly the 7.5 entry
survives; losers ranked ≤ 3 never yield candidates; each query's survivors
are sorted by stored score descending; and queries with zero surviving
candidates are absent from the output. -/
theorem C4_amended_selector :
    select_query_targets (fun _ _ => some ⟨none, none⟩) "q"
        [⟨"W1", "L", 4, 5, 0, 0, 1/2, 3⟩, ⟨"W2", "L", 4, 5, 0, 0, 1/2, 7.5⟩,
         ⟨"W3", "L", 4, 5, 0, 0, 1/2, 5⟩]
      = [⟨"L", 5, 0, 0, "W2", 7.5, "N/A", "N/A"⟩] ∧
    (∀ (vr : String → String → Option RuleInfo) (q : String) (ps : List CausalPair),
      (select_query_targets vr q ps).Pairwise (fun a b => a.item_id ≠ b.item_id)) ∧
    (∀ (vr : String → String → Option RuleInfo) (q : String) (ps : List CausalPair),
      (select_query_targets vr q ps).Pairwise
        (fun a b => b.opportunity_score ≤ a.opportunity_score)) ∧
    (∀ (vr : String → String → Option RuleInfo) (q : String) (ps : List CausalPair),
      ∀ c ∈ select_query_targets vr q ps,
        3 < c.current_rank ∧
        (∃ p ∈ ps, ∃ info, vr q p.loser_id = some info ∧ 3 < p.loser_rank ∧
          c = mkCandidate p info) ∧
        (∀ p ∈ ps, (vr q p.loser_id).isSome = true → 3 < p.loser_rank →
          p.loser_id = c.item_id → round2 (rawOppScore p) ≤ c.opportunity_score)) ∧
    (∀ (vr : String → String → Option RuleInfo) (q : String) (ps : List CausalPair),
      ∀ p ∈ ps, (vr q p.loser_id).isSome = true → 3 < p.loser_rank →
        ∃ c ∈ select_query_targets vr q ps, c.item_id = p.loser_id) ∧
    (∀ (vr : String → String → Option RuleInfo)
        (groups : List (String × List CausalPair)),
      (∀ g ∈ select_targets vr groups, g.2 ≠ []) ∧
      (∀ g ∈ groups, select_query_targets vr g.1 g.2 ≠ [] →
        (g.1, select_query_targets vr g.1 g.2) ∈ select_targets vr groups) ∧
      (∀ g ∈ select_targets vr groups, ∃ g0 ∈ groups, g.1 = g0.1 ∧
        g.2 = select_query_targets vr g0.1 g0.2)) := by
  have hinv : ∀ (vr : String → String → Option RuleInfo) (q : String)
      (ps : List CausalPair), SelInv vr q ps (ps.foldl (selStep vr q) []) := by
    intro vr q ps
    have h := selFold_inv vr q ps [] [] (selInv_nil vr q)
    simpa using h
  refine ⟨?_, ?_, ?_, ?_, ?_, ?_⟩
  · norm_num +decide [select_query_targets, selStep, mkCandidate, rawOppScore,
      round2, round4, sortDescBy, insDescBy, List.foldl, List.find?,
      List.erase_cons, round_eq]
  · intro vr q ps
    exact ((sortDescBy_perm _ _).pairwise_iff (fun hab => Ne.symm hab)).2 (hinv vr q ps).1
  · intro vr q ps
    exact sortDescBy_pairwise _ _
  · intro vr q ps c hc
    have hcF : c ∈ ps.foldl (selStep vr q) [] := (sortDescBy_perm _ _).mem_iff.1 hc
    obtain ⟨hpw, hbuild, hmax, hcomp⟩ := hinv vr q ps
    rcases hbuild c hcF with ⟨p, hp, info, hi, hr, hce⟩
    refine ⟨?_, ⟨p, hp, info, hi, hr, hce⟩, fun p2 hp2 hs2 hr2 hid2 =>
      hmax c hcF p2 hp2 hs2 hr2 hid2⟩
    rw [hce]
    exact hr
  · intro vr q ps p hp hs hr
    obtain ⟨hpw, hbuild, hmax, hcomp⟩ := hinv vr q ps
    rcases hcomp p hp hs hr with ⟨c, hcF, hcid⟩
    exact ⟨c, (sortDescBy_perm _ _).mem_iff.2 hcF, hcid⟩
  · intro vr groups
    refine ⟨?_, ?_, ?_⟩
    · intro g hg
      rcases List.mem_filterMap.1 hg with ⟨g0, hg0, heq⟩
      dsimp only at heq
      split_ifs at heq with h0
      have h1 := Option.some.inj heq
      rw [← h1]
      exact h0
    · intro g hg hne
      refine List.mem_filterMap.2 ⟨g, hg, ?_⟩
      dsimp only
      rw [if_neg hne]
    · intro g hg
      rcases List.mem_filterMap.1 hg with ⟨g0, hg0, heq⟩
      dsimp only at heq
      split_ifs at heq with h0
      have h2 := Option.some.inj heq
      rw [Prod.mk.injEq] at h2
      exact ⟨g0, hg0, h2.1.symm, h2.2.symm⟩
